import Mathlib

/-!
Verification of the vijam live-instrument engine against its specification.

The development shallowly embeds the relevant parts of the source:

* `HeldButtonNote` and its `render`/`set_param`/`mute`/`finished` operations
  from `src/main.rs` (per-note synthesis state machine), with `f32` arithmetic
  modelled over `ℝ` and Rust `Duration` values as real-valued seconds.
* The render loop and render queue from `src/render.rs` as a transition system
  over natural-number frame clocks.
* The audio-callback wait loop from `src/output.rs`.
* The modal key-dispatch engine, keyspec parser/formatter and the Lua wrapper
  discipline from `src/config.rs`.
-/

noncomputable section

deriving instance DecidableEq for Except

namespace Vijam

/-! ## HeldButtonNote (src/main.rs)

Times (`Duration` values in Rust) are modelled as real-valued seconds; `f32`
arithmetic is modelled over `ℝ`.  Rust's `%` on floats is truncation-based
remainder, embedded as `rustRem`. -/

/-- Rust `f32` truncation (toward zero) of a real number, as an integer. -/
def rustTrunc (x : ℝ) : ℤ := if 0 ≤ x then ⌊x⌋ else ⌈x⌉

/-- Rust's `%` operator on floats: `x % y = x - y * trunc (x / y)`. -/
def rustRem (x y : ℝ) : ℝ := x - y * rustTrunc (x / y)

/-- `std::f32::consts::TAU`, i.e. `2π`. -/
def TAU : ℝ := 2 * Real.pi

/-- `NoteParam` from src/main.rs (string payloads irrelevant to the claims are
kept as `String`). -/
inductive NoteParam where
  | Pitch (pitch : ℝ)
  | Amplitude (amp : ℝ)
  | Articulation (art : ℝ)
  | OtherFloat (key : String) (value : ℝ)
  | OtherString (key : String) (value : String)

/-- `HeldButtonNoteChange` from src/main.rs. -/
structure HeldButtonNoteChange where
  pitch : Option ℝ := none
  amplitude : Option ℝ := none
  mute : Bool := false

/-- `HeldButtonNote` from src/main.rs.  `mute_at`, `change_at` hold `Duration`
values (seconds); `change_phase` is the oscillator phase in radians. -/
structure HeldButtonNote where
  pitch : ℝ
  amplitude : ℝ
  mute_at : Option ℝ
  change_at : ℝ
  change_phase : ℝ
  change_pending : Option HeldButtonNoteChange

/-- `HeldButtonNote::with_change` from src/main.rs. -/
def HeldButtonNote.with_change (s : HeldButtonNote)
    (f : HeldButtonNoteChange → HeldButtonNoteChange) : HeldButtonNote :=
  { s with change_pending := some (f (s.change_pending.getD {})) }

/-- `HeldButtonNote::set_param` from src/main.rs. -/
def HeldButtonNote.set_param (s : HeldButtonNote) (param : NoteParam) : HeldButtonNote :=
  s.with_change (fun change =>
    match param with
    | .Pitch pitch => { change with pitch := some pitch }
    | .Amplitude amp => { change with amplitude := some amp }
    | _ => change)

/-- `HeldButtonNote::mute` from src/main.rs. -/
def HeldButtonNote.mute (s : HeldButtonNote) : HeldButtonNote :=
  s.with_change (fun change => { change with mute := true })

/-- `HeldButtonNote::phase` from src/main.rs:
`change_phase + (time - change_at).as_secs_f32() / (1.0 / pitch) * TAU`. -/
def HeldButtonNote.phase (s : HeldButtonNote) (time : ℝ) : ℝ :=
  s.change_phase + (time - s.change_at) / (1 / s.pitch) * TAU

/-- The pending-change block at the top of `HeldButtonNote::render`
(src/main.rs lines 384-397): convert the old `change_at`/`change_phase` into
the new time/phase using the pre-change params, then adopt the change. -/
def HeldButtonNote.applyChange (s : HeldButtonNote) (time : ℝ) : HeldButtonNote :=
  match s.change_pending with
  | none => s
  | some change =>
    let s1 : HeldButtonNote :=
      { s with change_phase := rustRem (s.phase time) TAU, change_at := time,
               change_pending := none }
    let s2 : HeldButtonNote :=
      match change.pitch with
      | some p => { s1 with pitch := p }
      | none => s1
    let s3 : HeldButtonNote :=
      match change.amplitude with
      | some a => { s2 with amplitude := a }
      | none => s2
    if change.mute then { s3 with mute_at := some time } else s3

/-- The ADSR-envelope computation inside `HeldButtonNote::render`
(src/main.rs lines 400-418).  Attack 50 ms, decay 50 ms, sustain 0.5,
release 500 ms; no clamping appears in the source. -/
def HeldButtonNote.adsrValue (s : HeldButtonNote) (time : ℝ) : ℝ :=
  match s.mute_at with
  | some release =>
    if release ≤ time then (1 - (time - release) / (1 / 2)) * (1 / 2)
    else if time < 1 / 20 then time / (1 / 20)
    else if time < 1 / 10 then (1 - (time - 1 / 20) / (1 / 20)) * (1 / 2) + 1 / 2
    else 1 / 2
  | none =>
    if time < 1 / 20 then time / (1 / 20)
    else if time < 1 / 10 then (1 - (time - 1 / 20) / (1 / 20)) * (1 / 2) + 1 / 2
    else 1 / 2

/-- `HeldButtonNote::render` from src/main.rs, returning the sample together
with the updated note state. -/
def HeldButtonNote.render (s : HeldButtonNote) (time : ℝ) : ℝ × HeldButtonNote :=
  let s1 := s.applyChange time
  let amp := Real.sin (s1.phase time)
  let adsr := s1.adsrValue time
  (amp * adsr * s1.amplitude, s1)

/-- `HeldButtonNote::finished` from src/main.rs:
`mute_at + 500ms < time` when muted, `false` otherwise. -/
def HeldButtonNote.finished (s : HeldButtonNote) (time : ℝ) : Prop :=
  ∃ r, s.mute_at = some r ∧ r + 1 / 2 < time

/-- The render loop (src/main.rs lines 515-531, src/render.rs lines 115-131)
invokes `note.render (now - ts)` only in an iteration where
`note.finished (retired - ts)` returned false, where
`now - retired = len · Δ` for the current ring length `len` (`Δ` is one
sample period) and a sample is pushed only when `len < 1024`, so `len ≤ 1023`.
`mayCall Δ s t` states that relative time `t` can be handed to `render` for a
note currently in state `s`. -/
def mayCall (Δ : ℝ) (s : HeldButtonNote) (t : ℝ) : Prop :=
  ∃ len : ℕ, len < 1024 ∧ ¬ s.finished (t - len * Δ)

end Vijam

namespace Vijam

/-! ## Key dispatch and mode machine (src/config.rs)

`KeyCode` keeps the variants named by the keyspec tables; `OtherKey` stands for
every other member of the upstream key-code enum (hit by the `_ => "<UNK>"`
arm of `fmt_keyspec`).  Lua callbacks are opaque; they are modelled by natural
number handles. -/

inductive KeyCode where
  | Escape
  | KeyA | KeyB | KeyC | KeyD | KeyE | KeyF | KeyG | KeyH | KeyI | KeyJ
  | KeyK | KeyL | KeyM | KeyN | KeyO | KeyP | KeyQ | KeyR | KeyS | KeyT
  | KeyU | KeyV | KeyW | KeyX | KeyY | KeyZ
  | Digit0 | Digit1 | Digit2 | Digit3 | Digit4 | Digit5 | Digit6 | Digit7
  | Digit8 | Digit9
  | Backquote | Minus | Equal | BracketLeft | BracketRight | Backslash
  | OtherKey
deriving DecidableEq, Fintype, Repr

/-- The 4-bit modifier set `{CTRL, SHIFT, ALT, SUPER}` (vizia `KeyModifiers`
bitflags; `logo` is the SUPER accessor used by `fmt_keyspec`). -/
structure KeyModifiers where
  ctrl : Bool
  shift : Bool
  alt : Bool
  logo : Bool
deriving DecidableEq, Fintype, Repr

def KeyModifiers.empty : KeyModifiers := ⟨false, false, false, false⟩

def KeyModifiers.CTRL : KeyModifiers := ⟨true, false, false, false⟩

def KeyModifiers.SHIFT : KeyModifiers := ⟨false, true, false, false⟩

def KeyModifiers.ALT : KeyModifiers := ⟨false, false, true, false⟩

def KeyModifiers.SUPER : KeyModifiers := ⟨false, false, false, true⟩

/-- Bitflags `union`. -/
def KeyModifiers.union (a b : KeyModifiers) : KeyModifiers :=
  ⟨a.ctrl || b.ctrl, a.shift || b.shift, a.alt || b.alt, a.logo || b.logo⟩

/-- Bitflags `contains`: every flag of `b` is set in `a`. -/
def KeyModifiers.contains (a b : KeyModifiers) : Bool :=
  (!b.ctrl || a.ctrl) && (!b.shift || a.shift) && (!b.alt || a.alt) && (!b.logo || a.logo)

/-- Number of set flags (modifier-mask popcount). -/
def KeyModifiers.popcount (a : KeyModifiers) : ℕ :=
  (if a.ctrl then 1 else 0) + (if a.shift then 1 else 0) +
    (if a.alt then 1 else 0) + (if a.logo then 1 else 0)

/-- `ORDERED_MODIFIERS` from src/config.rs lines 49-77, transcribed in source
order. -/
def ORDERED_MODIFIERS : List KeyModifiers :=
  [ KeyModifiers.CTRL.union (KeyModifiers.SHIFT.union (KeyModifiers.ALT.union KeyModifiers.SUPER)),
    KeyModifiers.SHIFT.union (KeyModifiers.ALT.union KeyModifiers.SUPER),
    KeyModifiers.CTRL.union (KeyModifiers.ALT.union KeyModifiers.SUPER),
    KeyModifiers.CTRL.union (KeyModifiers.SHIFT.union KeyModifiers.SUPER),
    KeyModifiers.CTRL.union (KeyModifiers.SHIFT.union KeyModifiers.ALT),
    KeyModifiers.ALT.union KeyModifiers.SUPER,
    KeyModifiers.SHIFT.union KeyModifiers.SUPER,
    KeyModifiers.SHIFT.union KeyModifiers.ALT,
    KeyModifiers.CTRL.union KeyModifiers.SUPER,
    KeyModifiers.CTRL.union KeyModifiers.ALT,
    KeyModifiers.CTRL.union KeyModifiers.SHIFT,
    KeyModifiers.SUPER,
    KeyModifiers.ALT,
    KeyModifiers.SHIFT,
    KeyModifiers.CTRL,
    KeyModifiers.empty ]

/-- `KeyChord(KeyCode, KeyModifiers)` from src/config.rs. -/
structure KeyChord where
  code : KeyCode
  mods : KeyModifiers
deriving DecidableEq, Fintype, Repr

/-- `JamStateKeyAction` from src/config.rs; `KeyCallback`s are opaque handles. -/
structure JamStateKeyAction where
  effect : ℕ
  effect_up : Option ℕ
  state : ℕ
deriving DecidableEq, Repr

/-- `JamState` from src/config.rs; the `HashMap` of bindings is modelled as an
association list with at most one entry per chord. -/
structure JamState where
  name : String
  keys : List (KeyChord × JamStateKeyAction)
  default : JamStateKeyAction

/-- `HashMap::get` on the binding table. -/
def JamState.keysGet (st : JamState) (c : KeyChord) : Option JamStateKeyAction :=
  (st.keys.find? (fun p => p.1 == c)).map Prod.snd

/-- The dispatch-relevant state of `JamConfig` from src/config.rs. -/
structure JamConfig where
  state_machine : List JamState
  current_state : ℕ
  keyup_actions : List (KeyCode × ℕ × KeyModifiers)

/-- `HashMap::insert` on `keyup_actions` (replaces any existing entry). -/
def insertKeyup (l : List (KeyCode × ℕ × KeyModifiers)) (k : KeyCode)
    (v : ℕ × KeyModifiers) : List (KeyCode × ℕ × KeyModifiers) :=
  (k, v) :: l.filter (fun p => !(p.1 == k))

/-- `HashMap::remove` lookup part on `keyup_actions`. -/
def lookupKeyup (l : List (KeyCode × ℕ × KeyModifiers)) (k : KeyCode) :
    Option (ℕ × KeyModifiers) :=
  (l.find? (fun p => p.1 == k)).map Prod.snd

/-- `HashMap::remove` removal part on `keyup_actions`. -/
def removeKeyup (l : List (KeyCode × ℕ × KeyModifiers)) (k : KeyCode) :
    List (KeyCode × ℕ × KeyModifiers) :=
  l.filter (fun p => !(p.1 == k))

/-- The modifier walk of `JamConfig::keymap_action` (src/config.rs lines
256-269): the first mask in `ORDERED_MODIFIERS` contained in the pressed
modifiers whose chord is bound in the mode. -/
def findMask (st : JamState) (key : KeyChord) : Option (KeyModifiers × JamStateKeyAction) :=
  ORDERED_MODIFIERS.findSome? (fun mask =>
    if key.mods.contains mask then
      (st.keysGet ⟨key.code, mask⟩).map (fun a => (mask, a))
    else none)

/-- `JamConfig::keymap_action` from src/config.rs lines 248-278, returning the
fired effect handle, the chord passed to it, and the updated dispatch state
(`none` models the `expect("Invalid internal state")` panic). -/
def JamConfig.keymap_action (cfg : JamConfig) (key : KeyChord) :
    Option (ℕ × KeyChord × JamConfig) :=
  match cfg.state_machine[cfg.current_state]? with
  | none => none
  | some st =>
    match findMask st key with
    | some (mask, action) =>
      some (action.effect, ⟨key.code, mask⟩,
        { cfg with
          current_state := action.state,
          keyup_actions := insertKeyup cfg.keyup_actions key.code (cfg.current_state, mask) })
    | none =>
      some (st.default.effect, key,
        { cfg with
          current_state := st.default.state,
          keyup_actions := insertKeyup cfg.keyup_actions key.code (cfg.current_state, key.mods) })

/-- `JamConfig::keymap_release_action` from src/config.rs lines 280-296: the
release handler (if any) that gets invoked, and the updated dispatch state
(`none` models the `expect("Invalid internal state")` panic). -/
def JamConfig.keymap_release_action (cfg : JamConfig) (key : KeyCode) :
    Option (Option ℕ × JamConfig) :=
  match lookupKeyup cfg.keyup_actions key with
  | none => some (none, cfg)
  | some (state_num, mods) =>
    match cfg.state_machine[state_num]? with
    | none => none
    | some st =>
      let action := (st.keysGet ⟨key, mods⟩).getD st.default
      some (action.effect_up, { cfg with keyup_actions := removeKeyup cfg.keyup_actions key })

end Vijam

namespace Vijam

/-! ## Native-function wrapper discipline (src/config.rs lines 129-182)

`make_native_func_setup` wraps a mode-mutation operation in
`app_data.borrow_mut()` on the `RefCell<JamConfig>`: this *panics* when any
borrow of that cell is outstanding.  `make_native_func_callback` wraps an
event-side operation in `.borrow()` followed by `inner.try_borrow_mut()`,
mapping a failed inner borrow to a structured `LuaError` returned to the
script. -/

inductive LuaOutcome (α : Type) where
  | ok (value : α)
  | scriptError
  | panicked
deriving DecidableEq

/-- Outstanding `RefCell` borrows at the moment a native function is invoked. -/
structure BorrowCtx where
  configShared : ℕ
  configMut : Bool
  innerMut : Bool

/-- `make_native_func_setup`: `borrow_mut()` succeeds only when no borrow of
the config cell is outstanding; otherwise it panics (`BorrowMutError`). -/
def callSetupNative {α : Type} (ctx : BorrowCtx) (cfg : JamConfig)
    (f : JamConfig → LuaOutcome (JamConfig × α)) : LuaOutcome (JamConfig × α) :=
  if ctx.configShared = 0 ∧ ctx.configMut = false then f cfg else .panicked

/-- `make_native_func_callback`: `.borrow()` panics only under an outstanding
mutable borrow; a failed `inner.try_borrow_mut()` is mapped to a structured
Lua error. -/
def callCallbackNative {σ α : Type} (ctx : BorrowCtx) (inner : σ)
    (f : σ → σ × α) : LuaOutcome (σ × α) :=
  if ctx.configMut then .panicked
  else if ctx.innerMut then .scriptError
  else .ok (f inner)

/-- Borrow state in effect while a key-effect callback runs: `on_keypress`
holds a shared borrow of the config cell (src/config.rs line 559) and
`keymap_action` holds the mutable borrow of the inner cell it passes to the
effect (src/config.rs line 265). -/
def activeEffectCtx : BorrowCtx := ⟨1, false, true⟩

/-- `JamConfig::native_bind` from src/config.rs lines 344-365 (`panicked`
models the `expect("Bad mode!")`). -/
def native_bind (mode : ℕ) (key : KeyChord) (action : ℕ) (next : Option ℕ)
    (cfg : JamConfig) : LuaOutcome (JamConfig × Option ℕ) :=
  let nextState := next.getD mode
  match cfg.state_machine[mode]? with
  | none => .panicked
  | some st =>
    let previous := (st.keysGet key).map (fun a => a.effect)
    let st' : JamState :=
      { st with keys := (key, ⟨action, none, nextState⟩) :: st.keys.filter (fun p => !(p.1 == key)) }
    .ok ({ cfg with state_machine := cfg.state_machine.set mode st' }, previous)

/-- `JamConfig::native_unbind` from src/config.rs lines 384-394. -/
def native_unbind (mode : ℕ) (key : KeyChord) (cfg : JamConfig) :
    LuaOutcome (JamConfig × Option ℕ) :=
  match cfg.state_machine[mode]? with
  | none => .panicked
  | some st =>
    let previous := (st.keysGet key).map (fun a => a.effect)
    let st' : JamState := { st with keys := st.keys.filter (fun p => !(p.1 == key)) }
    .ok ({ cfg with state_machine := cfg.state_machine.set mode st' }, previous)

/-- `JamConfig::native_bind_up` from src/config.rs lines 367-382 (`panicked`
also models the `expect` on an unbound chord). -/
def native_bind_up (mode : ℕ) (key : KeyChord) (action : ℕ) (cfg : JamConfig) :
    LuaOutcome (JamConfig × Option ℕ) :=
  match cfg.state_machine[mode]? with
  | none => .panicked
  | some st =>
    match st.keysGet key with
    | none => .panicked
    | some a =>
      let previous := a.effect_up
      let st' : JamState :=
        { st with keys := (key, { a with effect_up := some action }) :: st.keys.filter (fun p => !(p.1 == key)) }
      .ok ({ cfg with state_machine := cfg.state_machine.set mode st' }, previous)

/-- `JamConfig::native_make_mode` from src/config.rs lines 306-322. -/
def native_make_mode (name : String) (default_target : ℕ) (default_action : ℕ)
    (cfg : JamConfig) : LuaOutcome (JamConfig × ℕ) :=
  let result := cfg.state_machine.length
  .ok ({ cfg with state_machine :=
    cfg.state_machine ++ [⟨name, [], ⟨default_action, none, default_target⟩⟩] }, result)

end Vijam

namespace Vijam

/-! ## Keyspec textual syntax (src/config.rs lines 397-554)

Rust string slices are modelled as `List Char`; `str::split('-')` is
`List.splitOn '-'` (identical chunk semantics) and `join("-")` is
`List.intercalate ['-']`. -/

inductive KeyspecParseError where
  | Empty
  | BadKey (text : List Char)
  | BadModifier (text : List Char)
deriving DecidableEq, Repr

/-- The token table of `parse_keyspec_code` (src/config.rs lines 431-480),
one entry per match arm, in source order. -/
def keyTable : List (List Char × KeyCode) :=
  [ (['<', 'E', 'S', 'C', '>'], .Escape),
    (['a'], .KeyA), (['b'], .KeyB), (['c'], .KeyC), (['d'], .KeyD),
    (['e'], .KeyE), (['f'], .KeyF), (['g'], .KeyG), (['h'], .KeyH),
    (['i'], .KeyI), (['j'], .KeyJ), (['k'], .KeyK), (['l'], .KeyL),
    (['m'], .KeyM), (['n'], .KeyN), (['o'], .KeyO), (['p'], .KeyP),
    (['q'], .KeyQ), (['r'], .KeyR), (['s'], .KeyS), (['t'], .KeyT),
    (['u'], .KeyU), (['v'], .KeyV), (['w'], .KeyW), (['x'], .KeyX),
    (['y'], .KeyY), (['z'], .KeyZ),
    (['0'], .Digit0), (['1'], .Digit1), (['2'], .Digit2), (['3'], .Digit3),
    (['4'], .Digit4), (['5'], .Digit5), (['6'], .Digit6), (['7'], .Digit7),
    (['8'], .Digit8), (['9'], .Digit9),
    (['\x60'], .Backquote),
    (['<', 'D', 'A', 'S', 'H', '>'], .Minus),
    (['='], .Equal),
    (['\x7b'], .BracketLeft),
    (['\x7d'], .BracketRight),
    (['\\'], .Backslash) ]

/-- `parse_keyspec_code` from src/config.rs lines 431-480: the matching table
entry yields the key code with empty modifiers; anything else is `BadKey`. -/
def parse_keyspec_code (text : List Char) : Except KeyspecParseError KeyChord :=
  match keyTable.find? (fun p => p.1 == text) with
  | some p => .ok ⟨p.2, .empty⟩
  | none => .error (.BadKey text)

/-- `parse_keyspec_mods` from src/config.rs lines 482-490. -/
def parse_keyspec_mods (text : List Char) : Except KeyspecParseError KeyModifiers :=
  match text with
  | ['C'] => .ok KeyModifiers.CTRL
  | ['S'] => .ok KeyModifiers.SHIFT
  | ['A'] => .ok KeyModifiers.ALT
  | ['W'] => .ok KeyModifiers.SUPER
  | _ => .error (.BadModifier text)

/-- The `for piece in iter { mods |= parse_keyspec_mods(piece)? }` loop of
`parse_keyspec`. -/
def foldMods : List (List Char) → KeyModifiers → Except KeyspecParseError KeyModifiers
  | [], mods => .ok mods
  | piece :: rest, mods =>
    match parse_keyspec_mods piece with
    | .error e => .error e
    | .ok m => foldMods rest (mods.union m)

/-- `parse_keyspec` from src/config.rs lines 416-429.  The reversed iterator
takes the last hyphen-separated piece as the key and folds the remaining
pieces (in reverse order) into the modifier set. -/
def parse_keyspec (text : List Char) : Except KeyspecParseError KeyChord :=
  if text.length = 0 then .error .Empty
  else if text.length = 1 then parse_keyspec_code text
  else
    match (text.splitOn '-').reverse with
    | [] => .error .Empty
    | keyPiece :: modPieces =>
      match parse_keyspec_code keyPiece with
      | .error e => .error e
      | .ok c =>
        match foldMods modPieces c.mods with
        | .error e => .error e
        | .ok mods => .ok ⟨c.code, mods⟩

/-- The key-token table of `fmt_keyspec` (src/config.rs lines 506-552),
including the `_ => "<UNK>"` arm. -/
def keyToken : KeyCode → List Char
  | .Escape => ['<', 'E', 'S', 'C', '>']
  | .KeyA => ['a']
  | .KeyB => ['b']
  | .KeyC => ['c']
  | .KeyD => ['d']
  | .KeyE => ['e']
  | .KeyF => ['f']
  | .KeyG => ['g']
  | .KeyH => ['h']
  | .KeyI => ['i']
  | .KeyJ => ['j']
  | .KeyK => ['k']
  | .KeyL => ['l']
  | .KeyM => ['m']
  | .KeyN => ['n']
  | .KeyO => ['o']
  | .KeyP => ['p']
  | .KeyQ => ['q']
  | .KeyR => ['r']
  | .KeyS => ['s']
  | .KeyT => ['t']
  | .KeyU => ['u']
  | .KeyV => ['v']
  | .KeyW => ['w']
  | .KeyX => ['x']
  | .KeyY => ['y']
  | .KeyZ => ['z']
  | .Digit0 => ['0']
  | .Digit1 => ['1']
  | .Digit2 => ['2']
  | .Digit3 => ['3']
  | .Digit4 => ['4']
  | .Digit5 => ['5']
  | .Digit6 => ['6']
  | .Digit7 => ['7']
  | .Digit8 => ['8']
  | .Digit9 => ['9']
  | .Backquote => ['\x60']
  | .Minus => ['<', 'D', 'A', 'S', 'H', '>']
  | .Equal => ['=']
  | .BracketLeft => ['\x7b']
  | .BracketRight => ['\x7d']
  | .Backslash => ['\\']
  | .OtherKey => ['<', 'U', 'N', 'K', '>']

/-- `fmt_keyspec` from src/config.rs lines 492-554: modifier pieces in fixed
order C, S, A, W, then the key token, joined with hyphens. -/
def fmt_keyspec (keyspec : KeyChord) : List Char :=
  let pieces :=
    (if keyspec.mods.ctrl then [['C']] else []) ++
    (if keyspec.mods.shift then [['S']] else []) ++
    (if keyspec.mods.alt then [['A']] else []) ++
    (if keyspec.mods.logo then [['W']] else []) ++
    [keyToken keyspec.code]
  List.intercalate ['-'] pieces

end Vijam

namespace Vijam

/-! ## Render queue, render loop and audio callback (src/render.rs, src/output.rs)

The frame clock is `FrameInstant = u64`, modelled as `ℕ`; the render loop, the
incoming-event handler and the audio callback become a transition system on the
shared queue plus the voice map.  Note-internal state is irrelevant to the
queue-safety claims: the `finished`-retention test is abstracted into an
arbitrary `keep` predicate and the mixed sample into an arbitrary value. -/

def MAX_BUFFER_SPECULATE_SIZE : ℕ := 1024

def MAX_BUFFER_CONSUME_SIZE : ℕ := 256

/-- `RenderQueue` from src/render.rs; `buffer` holds the live ring contents
(initially empty). -/
structure RenderQueue where
  buffer : List ℝ
  tail_frame : ℕ
  last_consumed_size : ℕ

/-- `RenderQueue::head_time` from src/render.rs: `tail_frame + buffer.len()`. -/
def RenderQueue.head_time (q : RenderQueue) : ℕ := q.tail_frame + q.buffer.length

/-- `RenderQueue::tail_time` from src/render.rs: `tail_frame`. -/
def RenderQueue.tail_time (q : RenderQueue) : ℕ := q.tail_frame

/-- `buf.buffer.drain()` as performed by the event handler
(src/render.rs line 64): empties the ring, touching nothing else. -/
def RenderQueue.drainAll (q : RenderQueue) : RenderQueue := { q with buffer := [] }

/-- The shapes of `JamEvent` reaching the render loop. -/
inductive RenderEvent where
  | hit (instrument voice : ℕ)
  | setInstrumentParam (instrument : ℕ)
  | setNoteParam (instrument voice : ℕ)
  | muteNote (instrument voice : ℕ)

/-- Render-loop state: the shared queue, the voice map
`(instrument, voice) ↦ start_frame` (note-internal state elided), and the
fixed number of registered instruments. -/
structure RState where
  q : RenderQueue
  voices : List ((ℕ × ℕ) × ℕ)
  instruments : ℕ

/-- One event being applied by the render loop (src/render.rs lines 60-113):
the ring is drained, `now = head_time()` is read, and a `Hit` (on an existing
instrument) inserts a fresh note at `(iid, voice)` with start frame `now`,
displacing any previous occupant.  `SetParam`/`Mute` mutate only note-internal
state; events on nonexistent targets are skipped with a warning. -/
def applyEvent (s : RState) (e : RenderEvent) : RState :=
  let q := s.q.drainAll
  let now := q.head_time
  match e with
  | .hit iid voice =>
    if iid < s.instruments then
      { s with
          q := q
          voices := ((iid, voice), now) :: s.voices.filter (fun p => !(p.1 == (iid, voice))) }
    else { s with q := q }
  | _ => { s with q := q }

/-- One produce-a-frame iteration (src/render.rs lines 115-131): if the ring
is full nothing happens; otherwise finished notes are discarded (`keep`
abstracts `!finished(retired - ts)`), the remaining notes are mixed into one
sample, and that sample is pushed. -/
def renderStep (s : RState) (keep : (ℕ × ℕ) × ℕ → Bool) (sample : ℝ) : RState :=
  if s.q.buffer.length = MAX_BUFFER_SPECULATE_SIZE then s
  else
    { s with
        q := { s.q with buffer := s.q.buffer ++ [sample] }
        voices := s.voices.filter keep }

/-- One audio-callback invocation (src/output.rs lines 81-96): when
`len ≥ num_frames` it pops `num_frames` samples, advances `tail_frame` by
exactly that count and records `last_consumed_size`; otherwise it only clears
`last_consumed_size`. -/
def callbackStep (s : RState) (num_frames : ℕ) : RState :=
  if num_frames ≤ s.q.buffer.length then
    { s with q := { buffer := s.q.buffer.drop num_frames,
                    tail_frame := s.q.tail_frame + num_frames,
                    last_consumed_size := num_frames } }
  else { s with q := { s.q with last_consumed_size := 0 } }

/-- Interleaving of the render loop and the audio callback; the callback's
`num_frames` is driver-bounded by `MAX_BUFFER_CONSUME_SIZE` (asserted in
src/output.rs line 68). -/
inductive RStep : RState → RState → Prop where
  | event (e : RenderEvent) (s : RState) : RStep s (applyEvent s e)
  | render (keep : (ℕ × ℕ) × ℕ → Bool) (sample : ℝ) (s : RState) :
      RStep s (renderStep s keep sample)
  | callback (n : ℕ) (s : RState) (h : n ≤ MAX_BUFFER_CONSUME_SIZE) :
      RStep s (callbackStep s n)

/-- Initial state: empty ring, frame clock zero, no voices. -/
def RInit (instruments : ℕ) : RState := ⟨⟨[], 0, 0⟩, [], instruments⟩

/-- States reachable by the system from start-up. -/
def RReachable (s : RState) : Prop :=
  ∃ n, Relation.ReflTransGen RStep (RInit n) s

/-- The wait loop at the top of the audio callback (src/output.rs lines
69-80), counting its sleeps.  `backoffOk` is the timestamp test
`playback - BACKOFF_SLEEP > callback`; `info.timestamp()` is fixed for the
whole invocation, so the test is constant across iterations.  `lens` is the
sequence of ring lengths observed at successive lock acquisitions (the
producer may refill between iterations); each iteration breaks on
`len ≥ num_frames`, else sleeps once if `backoffOk` and loops, else breaks. -/
def waitLoopSleepCount (backoffOk : Bool) (num_frames : ℕ) : List ℕ → ℕ
  | [] => 0
  | len :: rest =>
    if num_frames ≤ len then 0
    else if backoffOk then 1 + waitLoopSleepCount backoffOk num_frames rest
    else 0

end Vijam

namespace Vijam

/-! ### Concrete states, bindings and tables used by the theorems -/

/-- Concrete instantiation of `pitch_change_is_phase_continuous`. -/
def c1sample : HeldButtonNote := ⟨440, 1 / 10, none, 0, 0, none⟩

/-- Concrete already-muted note for the envelope counterexamples. -/
def c2state : HeldButtonNote := ⟨440, 1, some 0, 0, 0, none⟩

/-- Concrete muted note for the C3 counterexample. -/
def c3state : HeldButtonNote := ⟨440, 1 / 2, some (1 / 10), 0, 0, none⟩

/-- Concrete unmuted note for the C2 witness. -/
def c2wit : HeldButtonNote := ⟨440, 1 / 10, none, 0, 0, none⟩

/-- The 16 modifier masks as the spec enumerates them: the full set; the
three-element subsets SAW, CAW, CSW, CSA; the two-element subsets AW, SW, SA,
CW, CA, CS; the singletons W, A, S, C; the empty set. -/
def orderedModifiersSpec : List KeyModifiers :=
  [ ⟨true, true, true, true⟩,
    ⟨false, true, true, true⟩,
    ⟨true, false, true, true⟩,
    ⟨true, true, false, true⟩,
    ⟨true, true, true, false⟩,
    ⟨false, false, true, true⟩,
    ⟨false, true, false, true⟩,
    ⟨false, true, true, false⟩,
    ⟨true, false, false, true⟩,
    ⟨true, false, true, false⟩,
    ⟨true, true, false, false⟩,
    ⟨false, false, false, true⟩,
    ⟨false, false, true, false⟩,
    ⟨false, true, false, false⟩,
    ⟨true, false, false, false⟩,
    ⟨false, false, false, false⟩ ]

def act1 : JamStateKeyAction := ⟨1, none, 0⟩

def act2 : JamStateKeyAction := ⟨2, none, 0⟩

def act3 : JamStateKeyAction := ⟨3, none, 0⟩

/-- The chord `C-a`. -/
def chordCa : KeyChord := ⟨.KeyA, KeyModifiers.CTRL⟩

/-- The chord `C-S-a`, also the modifiers of a `Ctrl+Shift+a` key press. -/
def chordCSa : KeyChord := ⟨.KeyA, KeyModifiers.CTRL.union KeyModifiers.SHIFT⟩

/-- Mode with both `C-a` and `C-S-a` bound. -/
def modeBoth : JamState := ⟨"Normal", [(chordCa, act1), (chordCSa, act2)], act3⟩

/-- Mode with only `C-a` bound. -/
def modeCOnly : JamState := ⟨"Normal", [(chordCa, act1)], act3⟩

/-- Mode with no binding. -/
def modeNeither : JamState := ⟨"Normal", [], act3⟩

def cfgWith (st : JamState) : JamConfig := ⟨[st], 0, []⟩

/-- Dispatch state with a recorded press of `C-a` under mode 0. -/
def cfgRel : JamConfig := ⟨[modeCOnly], 7, [(.KeyA, (0, KeyModifiers.CTRL))]⟩

/-- The render-loop safety invariant: every voice's start frame is at or
before the retired frame clock, and the ring never exceeds its capacity. -/
def RInv (s : RState) : Prop :=
  (∀ v ∈ s.voices, v.2 ≤ s.q.tail_frame) ∧
  s.q.buffer.length ≤ MAX_BUFFER_SPECULATE_SIZE

end Vijam

namespace Vijam

/-! ## Theorems -/

/-- `sin` is invariant under the truncation-based remainder by `TAU`: the
reduction subtracts an integer multiple of `2π`. -/
theorem sin_rustRem_tau (x : ℝ) : Real.sin (rustRem x TAU) = Real.sin x := by
  have h : rustRem x TAU = x - (rustTrunc (x / TAU) : ℤ) * (2 * Real.pi) := by
    unfold rustRem TAU
    ring
  rw [h, Real.sin_sub_int_mul_two_pi]

/-- The ADSR value reads only `mute_at` from the note state. -/
theorem adsrValue_eq_of_mute_at_eq (s s' : HeldButtonNote) (t : ℝ)
    (h : s.mute_at = s'.mute_at) : s.adsrValue t = s'.adsrValue t := by
  unfold HeldButtonNote.adsrValue
  rw [h]

/-- The phase at a time can be written with an explicit pitch factor. -/
theorem phase_eq (s : HeldButtonNote) (t : ℝ) :
    s.phase t = s.change_phase + (t - s.change_at) * s.pitch * (2 * Real.pi) := by
  unfold HeldButtonNote.phase TAU
  rw [div_div_eq_mul_div, div_one]

/-- C1: if a `set_param(Pitch p')` is pending, `render t` applies the change
using the pre-change params — it recomputes the phase from the old pitch as
`change_phase + (t − change_at)·2π·pitch_old` (times in seconds; the spec's
`/sample_rate` is the frame-to-seconds conversion), reduced by `% TAU`, sets
`change_at = t`, adopts the new pitch and clears the pending change — and the
sample returned at `t` is exactly the one the old parameters would have
produced at `t` (exact equality in real semantics, hence within 1 ULP for
`f32`). -/
theorem pitch_change_is_phase_continuous (s : HeldButtonNote) (p' t : ℝ)
    (hpend : s.change_pending = none) :
    ((s.set_param (.Pitch p')).render t).1 = (s.render t).1 ∧
    ((s.set_param (.Pitch p')).render t).2.change_at = t ∧
    ((s.set_param (.Pitch p')).render t).2.change_phase
      = rustRem (s.change_phase + (t - s.change_at) * s.pitch * (2 * Real.pi)) (2 * Real.pi) ∧
    ((s.set_param (.Pitch p')).render t).2.pitch = p' ∧
    ((s.set_param (.Pitch p')).render t).2.change_pending = none := by
  have hTAU : TAU = 2 * Real.pi := rfl
  have hset : s.set_param (.Pitch p')
      = { s with change_pending := some ⟨some p', none, false⟩ } := by
    unfold HeldButtonNote.set_param HeldButtonNote.with_change
    rw [hpend]
    rfl
  have happly : (s.set_param (.Pitch p')).applyChange t
      = ⟨p', s.amplitude, s.mute_at, t, rustRem (s.phase t) TAU, none⟩ := by
    rw [hset]
    rfl
  have happly0 : s.applyChange t = s := by
    unfold HeldButtonNote.applyChange
    rw [hpend]
  unfold HeldButtonNote.render
  rw [happly, happly0]
  dsimp only
  refine ⟨?_, rfl, by rw [← phase_eq, ← hTAU], rfl, rfl⟩
  have hph : HeldButtonNote.phase ⟨p', s.amplitude, s.mute_at, t, rustRem (s.phase t) TAU, none⟩ t
      = rustRem (s.phase t) TAU := by
    unfold HeldButtonNote.phase
    simp
  rw [hph, sin_rustRem_tau]
  have hmu : (⟨p', s.amplitude, s.mute_at, t, rustRem (s.phase t) TAU, none⟩ :
      HeldButtonNote).mute_at = s.mute_at := rfl
  rw [adsrValue_eq_of_mute_at_eq _ s t hmu]

theorem pitch_change_is_phase_continuous_witness :
    c1sample.change_pending = none ∧
    ((c1sample.set_param (.Pitch 880)).render 1).1 = (c1sample.render 1).1 ∧
    ((c1sample.set_param (.Pitch 880)).render 1).2.pitch = 880 :=
  ⟨rfl, (pitch_change_is_phase_continuous c1sample 880 1 rfl).1,
    (pitch_change_is_phase_continuous c1sample 880 1 rfl).2.2.2.1⟩

/-- Applying a pending change either leaves `mute_at` alone or (for a pending
mute) stamps it with the render time. -/
theorem applyChange_mute_at (s : HeldButtonNote) (t : ℝ) :
    (s.applyChange t).mute_at = s.mute_at ∨ (s.applyChange t).mute_at = some t := by
  cases h : s.change_pending with
  | none =>
    left
    unfold HeldButtonNote.applyChange
    rw [h]
  | some change =>
    obtain ⟨cp, ca, cm⟩ := change
    unfold HeldButtonNote.applyChange
    rw [h]
    cases cp <;> cases ca <;> cases cm <;> simp

/-- The envelope factor stays within `[-1, 1]` whenever `0 ≤ t` and any mute
stamp satisfies `t - r ≤ 3/2`. -/
theorem abs_adsrValue_le_one (s : HeldButtonNote) (t : ℝ) (h0 : 0 ≤ t)
    (hm : ∀ r, s.mute_at = some r → t - r ≤ 3 / 2) :
    |s.adsrValue t| ≤ 1 := by
  unfold HeldButtonNote.adsrValue
  rw [abs_le]
  cases hmu : s.mute_at with
  | none =>
    dsimp only
    split_ifs with h1 h2
    · have e : t / (1 / 20 : ℝ) = 20 * t := by ring
      rw [e]; constructor <;> linarith
    · have e : (1 - (t - 1 / 20) / (1 / 20 : ℝ)) * (1 / 2) + 1 / 2 = 3 / 2 - 10 * t := by ring
      rw [e]; constructor <;> linarith
    · constructor <;> norm_num
  | some r =>
    have hr := hm r hmu
    dsimp only
    split_ifs with h1 h2 h3
    · have e : (1 - (t - r) / (1 / 2 : ℝ)) * (1 / 2) = 1 / 2 - (t - r) := by ring
      rw [e]; constructor <;> linarith
    · have e : t / (1 / 20 : ℝ) = 20 * t := by ring
      rw [e]; constructor <;> linarith
    · have e : (1 - (t - 1 / 20) / (1 / 20 : ℝ)) * (1 / 2) + 1 / 2 = 3 / 2 - 10 * t := by ring
      rw [e]; constructor <;> linarith
    · constructor <;> norm_num

/-- C2 (amended): at every relative time the render loop may hand to
`render` (`mayCall`), the sample is `amp · adsr · amplitude` with `|amp| ≤ 1`
and `|adsr| ≤ 1` — the release ramp can dip slightly below zero, so `adsr`
lies in `[-1, 1]` rather than `[0, 1]` — hence `|render t| ≤ amplitude`
(the note's amplitude parameter after any pending change). -/
theorem render_bounded_by_amplitude (s : HeldButtonNote) (t Δ : ℝ)
    (h0 : 0 ≤ t) (hΔ : 0 ≤ Δ) (hslack : 1023 * Δ ≤ 1)
    (hcall : mayCall Δ s t) (hamp : 0 ≤ ((s.render t).2).amplitude) :
    |(s.render t).1| ≤ ((s.render t).2).amplitude := by
  obtain ⟨len, hlen, hnf⟩ := hcall
  have h1023 : (len : ℝ) ≤ 1023 := by
    exact_mod_cast (by omega : len ≤ 1023)
  have hlenΔ : (len : ℝ) * Δ ≤ 1023 * Δ := mul_le_mul_of_nonneg_right h1023 hΔ
  have hm : ∀ r, (s.applyChange t).mute_at = some r → t - r ≤ 3 / 2 := by
    intro r hrr
    rcases applyChange_mute_at s t with hca | hca
    · rw [hca] at hrr
      have hng : ¬ (r + 1 / 2 < t - len * Δ) := fun hlt => hnf ⟨r, hrr, hlt⟩
      push_neg at hng
      linarith
    · rw [hca] at hrr
      injection hrr with hrr'
      rw [← hrr']
      linarith
  have hsin : |Real.sin ((s.applyChange t).phase t)| ≤ 1 := Real.abs_sin_le_one _
  have hadsr : |(s.applyChange t).adsrValue t| ≤ 1 := abs_adsrValue_le_one _ t h0 hm
  unfold HeldButtonNote.render at hamp ⊢
  dsimp only at hamp ⊢
  calc |Real.sin ((s.applyChange t).phase t) * (s.applyChange t).adsrValue t *
        (s.applyChange t).amplitude|
      = |Real.sin ((s.applyChange t).phase t)| * |(s.applyChange t).adsrValue t| *
        |(s.applyChange t).amplitude| := by rw [abs_mul, abs_mul]
    _ ≤ 1 * 1 * |(s.applyChange t).amplitude| := by
        gcongr
    _ = (s.applyChange t).amplitude := by rw [one_mul, one_mul, abs_of_nonneg hamp]

/-- C2 counterexample: at a relative time the render loop can legitimately
reach (`mayCall` at 44.1 kHz), the envelope factor used by `render` is
negative, refuting `adsr ∈ [0, 1]`. -/
theorem adsr_factor_negative_at_reachable_time :
    mayCall (1 / 44100) c2state (51 / 100) ∧ (0 : ℝ) ≤ 51 / 100 ∧
    (c2state.applyChange (51 / 100)).adsrValue (51 / 100) < 0 := by
  refine ⟨⟨1023, by norm_num, ?_⟩, by norm_num, ?_⟩
  · rintro ⟨r, hr, hlt⟩
    have : r = 0 := by
      have : some (0 : ℝ) = some r := hr
      injection this with h
      exact h.symm
    rw [this] at hlt
    norm_num at hlt
  · have happ : c2state.applyChange (51 / 100) = c2state := by
      unfold HeldButtonNote.applyChange c2state
      rfl
    rw [happ]
    unfold HeldButtonNote.adsrValue c2state
    norm_num

/-- C3 (amended): once muted at `r` and `t ≥ r`, the envelope is exactly
`(1 − (t − r)/release) · sustain` with **no** clamping; on the times the
render loop can reach it is bounded below by `−1023·Δ` (one ring of
look-ahead), not by zero. -/
theorem release_envelope_unclamped (s : HeldButtonNote) (t Δ r : ℝ)
    (hr : s.mute_at = some r) (hrt : r ≤ t) (hΔ : 0 ≤ Δ)
    (hcall : mayCall Δ s t) :
    s.adsrValue t = (1 - (t - r) / (1 / 2)) * (1 / 2) ∧
    -(1023 * Δ) ≤ s.adsrValue t := by
  have he : s.adsrValue t = (1 - (t - r) / (1 / 2)) * (1 / 2) := by
    unfold HeldButtonNote.adsrValue
    rw [hr]
    dsimp only
    rw [if_pos hrt]
  refine ⟨he, ?_⟩
  obtain ⟨len, hlen, hnf⟩ := hcall
  have hng : ¬ (r + 1 / 2 < t - len * Δ) := fun hlt => hnf ⟨r, hr, hlt⟩
  push_neg at hng
  have h1023 : (len : ℝ) ≤ 1023 := by
    exact_mod_cast (by omega : len ≤ 1023)
  have hlenΔ : (len : ℝ) * Δ ≤ 1023 * Δ := mul_le_mul_of_nonneg_right h1023 hΔ
  rw [he]
  have e2 : (1 - (t - r) / (1 / 2 : ℝ)) * (1 / 2) = 1 / 2 - (t - r) := by ring
  rw [e2]
  linarith

/-- C3 counterexample: a muted note at a render-loop-reachable relative time
whose envelope factor is negative — the source applies no `≥ 0` clamp. -/
theorem release_envelope_negative_cex :
    mayCall (1 / 44100) c3state (31 / 50) ∧ (1 / 10 : ℝ) ≤ 31 / 50 ∧
    c3state.adsrValue (31 / 50) < 0 := by
  refine ⟨⟨1023, by norm_num, ?_⟩, by norm_num, ?_⟩
  · rintro ⟨r, hr, hlt⟩
    have : r = 1 / 10 := by
      have : some (1 / 10 : ℝ) = some r := hr
      injection this with h
      exact h.symm
    rw [this] at hlt
    norm_num at hlt
  · unfold HeldButtonNote.adsrValue c3state
    norm_num

theorem render_bounded_by_amplitude_witness :
    mayCall 0 c2wit 0 ∧ |(c2wit.render 0).1| ≤ ((c2wit.render 0).2).amplitude := by
  have hcall : mayCall 0 c2wit 0 :=
    ⟨0, by norm_num, by rintro ⟨r, hr, _⟩; exact Option.noConfusion hr⟩
  refine ⟨hcall, render_bounded_by_amplitude c2wit 0 0 le_rfl le_rfl (by norm_num) hcall ?_⟩
  show (0 : ℝ) ≤ 1 / 10
  norm_num

theorem release_envelope_unclamped_witness :
    c3state.mute_at = some (1 / 10) ∧
    c3state.adsrValue (1 / 10) = (1 - ((1 : ℝ) / 10 - 1 / 10) / (1 / 2)) * (1 / 2) := by
  have hcall : mayCall 0 c3state (1 / 10) := by
    refine ⟨0, by norm_num, ?_⟩
    rintro ⟨r, hr, hlt⟩
    have hr' : r = 1 / 10 := by
      have : some (1 / 10 : ℝ) = some r := hr
      injection this with h
      exact h.symm
    rw [hr'] at hlt
    norm_num at hlt
  exact ⟨rfl,
    (release_envelope_unclamped c3state (1 / 10) 0 (1 / 10) rfl le_rfl le_rfl hcall).1⟩

/-- First-match decomposition for `List.findSome?`. -/
theorem findSome?_eq_some_split {α β : Type} (l : List α) (f : α → Option β) (b : β)
    (h : l.findSome? f = some b) :
    ∃ l1 x l2, l = l1 ++ x :: l2 ∧ f x = some b ∧ ∀ y ∈ l1, f y = none := by
  induction l with
  | nil => exact absurd h (by simp)
  | cons a l ih =>
    rw [List.findSome?_cons] at h
    cases hfa : f a with
    | some v =>
      rw [hfa] at h
      exact ⟨[], a, l, rfl, by rw [hfa]; exact h, by simp⟩
    | none =>
      rw [hfa] at h
      obtain ⟨l1, x, l2, hdec, hfx, hnone⟩ := ih h
      refine ⟨a :: l1, x, l2, by rw [hdec]; rfl, hfx, ?_⟩
      intro y hy
      rcases List.mem_cons.mp hy with h1 | h1
      · rw [h1, hfa]
      · exact hnone y h1

/-- The modifier walk returns the first mask of `ORDERED_MODIFIERS` contained
in the pressed modifiers whose chord is bound; every earlier contained mask is
unbound. -/
theorem findMask_first (st : JamState) (key : KeyChord) (mask : KeyModifiers)
    (action : JamStateKeyAction) (h : findMask st key = some (mask, action)) :
    ∃ pre post, ORDERED_MODIFIERS = pre ++ mask :: post ∧
      key.mods.contains mask = true ∧
      st.keysGet ⟨key.code, mask⟩ = some action ∧
      ∀ m ∈ pre, key.mods.contains m = true → st.keysGet ⟨key.code, m⟩ = none := by
  obtain ⟨l1, x, l2, hdec, hfx, hnone⟩ := findSome?_eq_some_split _ _ _ h
  have hx : x = mask ∧ st.keysGet ⟨key.code, x⟩ = some action ∧
      key.mods.contains x = true := by
    by_cases hc : key.mods.contains x
    · rw [if_pos hc] at hfx
      cases hks : st.keysGet ⟨key.code, x⟩ with
      | none => rw [hks] at hfx; exact absurd hfx (by simp)
      | some a =>
        rw [hks] at hfx
        simp only [Option.map_some'] at hfx
        injection hfx with hfx'
        have h1 : x = mask := congrArg Prod.fst hfx'
        have h2 : a = action := congrArg Prod.snd hfx'
        exact ⟨h1, congrArg some h2, hc⟩
    · rw [if_neg hc] at hfx
      exact absurd hfx (by simp)
  obtain ⟨hxm, hks, hc⟩ := hx
  refine ⟨l1, l2, by rw [← hxm]; exact hdec, by rw [← hxm]; exact hc,
    by rw [← hxm]; exact hks, ?_⟩
  intro m hm hcm
  have := hnone m hm
  rw [if_pos hcm] at this
  cases hk : st.keysGet ⟨key.code, m⟩ with
  | none => rfl
  | some a => rw [hk] at this; exact absurd this (by simp)

/-- C4: key-press dispatch walks the 16 modifier masks in the
descending-specificity order the spec enumerates (which is descending
popcount) and fires the first contained mask that is bound, falling back to
the mode default; with `C-a` and `C-S-a` both bound, `Ctrl+Shift+a` fires the
`C-S-a` action; with only `C-a` bound it fires `C-a`; with neither it fires
the default. -/
theorem modifier_precedence_dispatch :
    ORDERED_MODIFIERS = orderedModifiersSpec ∧
    List.Sorted (· ≥ ·) (ORDERED_MODIFIERS.map KeyModifiers.popcount) ∧
    ((cfgWith modeBoth).keymap_action chordCSa).map (fun r => r.1) = some 2 ∧
    ((cfgWith modeCOnly).keymap_action chordCSa).map (fun r => r.1) = some 1 ∧
    ((cfgWith modeNeither).keymap_action chordCSa).map (fun r => r.1) = some 3 ∧
    (∀ (st : JamState) (key : KeyChord) (mask : KeyModifiers)
        (action : JamStateKeyAction), findMask st key = some (mask, action) →
      ∃ pre post, ORDERED_MODIFIERS = pre ++ mask :: post ∧
        key.mods.contains mask = true ∧
        st.keysGet ⟨key.code, mask⟩ = some action ∧
        ∀ m ∈ pre, key.mods.contains m = true → st.keysGet ⟨key.code, m⟩ = none) ∧
    (∀ (cfg : JamConfig) (key : KeyChord) (st : JamState),
      cfg.state_machine[cfg.current_state]? = some st →
      findMask st key = none →
      (cfg.keymap_action key).map (fun r => r.1) = some st.default.effect) := by
  refine ⟨by decide, by decide, by decide, by decide, by decide, findMask_first, ?_⟩
  intro cfg key st hst hfm
  simp [JamConfig.keymap_action, hst, hfm]

theorem modifier_precedence_dispatch_witness :
    ∃ pre post,
      ORDERED_MODIFIERS = pre ++ (KeyModifiers.CTRL.union KeyModifiers.SHIFT) :: post ∧
      chordCSa.mods.contains (KeyModifiers.CTRL.union KeyModifiers.SHIFT) = true ∧
      modeBoth.keysGet ⟨chordCSa.code, KeyModifiers.CTRL.union KeyModifiers.SHIFT⟩ = some act2 ∧
      ∀ m ∈ pre, chordCSa.mods.contains m = true →
        modeBoth.keysGet ⟨chordCSa.code, m⟩ = none :=
  modifier_precedence_dispatch.2.2.2.2.2.1 modeBoth chordCSa
    (KeyModifiers.CTRL.union KeyModifiers.SHIFT) act2 (by decide)

/-- A remove on the key-up map erases the binding for that key. -/
theorem lookupKeyup_removeKeyup (l : List (KeyCode × ℕ × KeyModifiers)) (k : KeyCode) :
    lookupKeyup (removeKeyup l k) k = none := by
  unfold lookupKeyup removeKeyup
  have h : (l.filter (fun p => !(p.1 == k))).find? (fun p => p.1 == k) = none := by
    rw [List.find?_eq_none]
    intro x hx
    have hmem := List.mem_filter.mp hx
    simpa using hmem.2
  rw [h]
  rfl

/-- C9: releasing a key whose press was recorded as `(prior_state, mask)`
invokes the `effect_up` of the binding `(code, mask)` — or the default — of
mode `prior_state` (the mode current at press time), removes the pressed
entry, and is entirely independent of the mode current at release time. -/
theorem release_routing_uses_press_state
    (cfg : JamConfig) (key : KeyCode) (ps : ℕ) (m : KeyModifiers) (st : JamState)
    (hk : lookupKeyup cfg.keyup_actions key = some (ps, m))
    (hst : cfg.state_machine[ps]? = some st) :
    cfg.keymap_release_action key =
      some (((st.keysGet ⟨key, m⟩).getD st.default).effect_up,
        { cfg with keyup_actions := removeKeyup cfg.keyup_actions key }) ∧
    lookupKeyup (removeKeyup cfg.keyup_actions key) key = none ∧
    (∀ c' : ℕ,
      JamConfig.keymap_release_action ⟨cfg.state_machine, c', cfg.keyup_actions⟩ key =
      some (((st.keysGet ⟨key, m⟩).getD st.default).effect_up,
        ⟨cfg.state_machine, c', removeKeyup cfg.keyup_actions key⟩)) := by
  refine ⟨?_, lookupKeyup_removeKeyup _ _, ?_⟩
  · simp [JamConfig.keymap_release_action, hk, hst]
  · intro c'
    simp [JamConfig.keymap_release_action, hk, hst]

theorem release_routing_uses_press_state_witness :
    cfgRel.keymap_release_action .KeyA =
      some (((modeCOnly.keysGet ⟨.KeyA, KeyModifiers.CTRL⟩).getD modeCOnly.default).effect_up,
        { cfgRel with keyup_actions := removeKeyup cfgRel.keyup_actions .KeyA }) :=
  (release_routing_uses_press_state cfgRel .KeyA 0 KeyModifiers.CTRL modeCOnly rfl rfl).1

/-- The key-token parser only produces codes from its table (never the
`OtherKey` stand-in for unlisted codes). -/
theorem parse_keyspec_code_ok_code (text : List Char) (c : KeyChord)
    (h : parse_keyspec_code text = .ok c) : c.code ≠ .OtherKey := by
  unfold parse_keyspec_code at h
  cases hf : keyTable.find? (fun p => p.1 == text) with
  | none => rw [hf] at h; exact Except.noConfusion h
  | some p =>
    rw [hf] at h
    injection h with h'
    have hmem := List.mem_of_find?_eq_some hf
    have hall : ∀ q ∈ keyTable, q.2 ≠ KeyCode.OtherKey := by decide
    rw [← h']
    exact hall p hmem

/-- Any chord the parser accepts carries a code from the token table. -/
theorem parse_keyspec_ok_code (text : List Char) (c : KeyChord)
    (h : parse_keyspec text = .ok c) : c.code ≠ .OtherKey := by
  unfold parse_keyspec at h
  split at h
  · exact absurd h (by simp)
  split at h
  · exact parse_keyspec_code_ok_code _ _ h
  · split at h
    · exact absurd h (by simp)
    · rename_i keyPiece modPieces _
      split at h
      · exact absurd h (by simp)
      · rename_i c' hc'
        split at h
        · exact absurd h (by simp)
        · rename_i mods _
          injection h with h'
          rw [← h']
          exact parse_keyspec_code_ok_code keyPiece c' hc'

set_option maxRecDepth 8192 in
/-- Formatting any table chord and re-parsing is the identity (all 43 key
tokens × 16 modifier sets, checked exhaustively). -/
theorem fmt_parse_keyspec_id : ∀ c : KeyChord, c.code ≠ .OtherKey →
    parse_keyspec (fmt_keyspec c) = .ok c := by decide

/-- C5: for every chord the parser accepts (the result of a successful
`parse_keyspec`), serializing with `fmt_keyspec` (modifiers in fixed order
C, S, A, W, then the key token) and re-parsing returns exactly the same
chord. -/
theorem keyspec_roundtrip (s : List Char) (c : KeyChord)
    (h : parse_keyspec s = .ok c) :
    parse_keyspec (fmt_keyspec c) = .ok c :=
  fmt_parse_keyspec_id c (parse_keyspec_ok_code s c h)

theorem keyspec_roundtrip_witness :
    parse_keyspec ['C', '-', 'a'] = .ok ⟨.KeyA, KeyModifiers.CTRL⟩ ∧
    parse_keyspec (fmt_keyspec ⟨.KeyA, KeyModifiers.CTRL⟩) = .ok ⟨.KeyA, KeyModifiers.CTRL⟩ :=
  ⟨by decide, keyspec_roundtrip ['C', '-', 'a'] ⟨.KeyA, KeyModifiers.CTRL⟩ (by decide)⟩

end Vijam



namespace Vijam

/-- C6 counterexample: invoking `bind` from inside an active key-effect
callback hits `borrow_mut` on the already-borrowed config cell, which panics
(`BorrowMutError`) — it is not the structured script error the claim
promises. -/
theorem reentrant_bind_panics :
    callSetupNative activeEffectCtx (cfgWith modeNeither)
      (native_bind 0 chordCa 7 none) = .panicked ∧
    (LuaOutcome.panicked : LuaOutcome (JamConfig × Option ℕ)) ≠ .scriptError := by
  constructor
  · simp [callSetupNative, activeEffectCtx]
  · intro hcontra
    exact LuaOutcome.noConfusion hcontra

/-- C6 (amended): a mode-mutation operation (`bind`, `unbind`, `bindUp`,
`mkMode`) invoked from within an active key-effect callback fails by a
`RefCell` double-borrow **panic** in the `make_native_func_setup` wrapper —
before the mutator runs, so the dispatch state is unchanged — whereas the
event-side wrappers (`play`, `mute`, tempo and timers) in the same context
fail with a structured script error via `try_borrow_mut`. -/
theorem reentrant_mode_mutation_panics (cfg : JamConfig) (mode next action : ℕ)
    (key : KeyChord) (nm : String) :
    callSetupNative activeEffectCtx cfg (native_bind mode key action (some next)) = .panicked ∧
    callSetupNative activeEffectCtx cfg (native_unbind mode key) = .panicked ∧
    callSetupNative activeEffectCtx cfg (native_bind_up mode key action) = .panicked ∧
    callSetupNative activeEffectCtx cfg (native_make_mode nm next action) = .panicked ∧
    (∀ (inner : ℕ) (f : ℕ → ℕ × ℕ),
      callCallbackNative activeEffectCtx inner f = .scriptError) := by
  refine ⟨?_, ?_, ?_, ?_, ?_⟩ <;>
    simp [callSetupNative, callCallbackNative, activeEffectCtx]

/-- Drained tail frame is untouched by event application. -/
theorem applyEvent_tail_frame (s : RState) (e : RenderEvent) :
    (applyEvent s e).q.tail_frame = s.q.tail_frame := by
  cases e with
  | hit iid voice =>
    unfold applyEvent
    dsimp only
    split <;> rfl
  | setInstrumentParam iid => rfl
  | setNoteParam iid voice => rfl
  | muteNote iid voice => rfl

/-- Event application empties the ring. -/
theorem applyEvent_buffer (s : RState) (e : RenderEvent) :
    (applyEvent s e).q.buffer = [] := by
  cases e with
  | hit iid voice =>
    unfold applyEvent
    dsimp only
    split <;> rfl
  | setInstrumentParam iid => rfl
  | setNoteParam iid voice => rfl
  | muteNote iid voice => rfl

/-- Every voice present after an event either was just inserted at the
drained head (= the tail frame) or was already in the map. -/
theorem applyEvent_voices_start (s : RState) (e : RenderEvent)
    (v : (ℕ × ℕ) × ℕ) (hv : v ∈ (applyEvent s e).voices) :
    v.2 = s.q.tail_frame ∨ v ∈ s.voices := by
  cases e with
  | hit iid voice =>
    unfold applyEvent at hv
    dsimp only at hv
    split at hv
    · rcases List.mem_cons.mp hv with h1 | h1
      · left
        rw [h1]
        rfl
      · right
        exact List.mem_of_mem_filter h1
    · right
      exact hv
  | setInstrumentParam iid => right; exact hv
  | setNoteParam iid voice => right; exact hv
  | muteNote iid voice => right; exact hv

theorem RInv_init (n : ℕ) : RInv (RInit n) := by
  constructor
  · intro v hv
    exact absurd hv (List.not_mem_nil v)
  · norm_num [RInit, MAX_BUFFER_SPECULATE_SIZE]

theorem RInv_step (s s' : RState) (h : RInv s) (hs : RStep s s') : RInv s' := by
  obtain ⟨hv, hl⟩ := h
  cases hs with
  | event e =>
    constructor
    · intro v hvm
      rcases applyEvent_voices_start s e v hvm with h1 | h1
      · rw [applyEvent_tail_frame, h1]
      · rw [applyEvent_tail_frame]
        exact hv v h1
    · rw [show (applyEvent s e).q.buffer = [] from applyEvent_buffer s e]
      norm_num [MAX_BUFFER_SPECULATE_SIZE]
  | render keep sample =>
    unfold renderStep
    split_ifs with hfull
    · exact ⟨hv, hl⟩
    · constructor
      · intro v hvm
        dsimp only at hvm
        exact hv v (List.mem_of_mem_filter hvm)
      · dsimp only
        rw [List.length_append]
        simp only [List.length_singleton]
        omega
  | callback n hn =>
    unfold callbackStep
    split_ifs with hle
    · constructor
      · intro v hvm
        dsimp only at hvm ⊢
        exact le_trans (hv v hvm) (Nat.le_add_right _ _)
      · dsimp only
        rw [List.length_drop]
        omega
    · exact ⟨hv, hl⟩

theorem RReachable_inv (s : RState) (h : RReachable s) : RInv s := by
  obtain ⟨n, hr⟩ := h
  induction hr with
  | refl => exact RInv_init n
  | tail hab hbc ih => exact RInv_step _ _ ih hbc

/-- C7: in every reachable state of the render loop / audio callback system,
each voice's start frame is ≤ the retired clock (`tail_time`) and ≤ the
speculation clock (`head_time`), so the `retired − start` and `now − start`
subtractions never underflow; the ring never exceeds its capacity; the
callback pops (advances `tail_frame`) only when `len ≥ num_frames`; and a
render push never grows the ring past its capacity. -/
theorem render_loop_total (s : RState) (h : RReachable s) :
    (∀ v ∈ s.voices, v.2 ≤ s.q.tail_time ∧ v.2 ≤ s.q.head_time) ∧
    s.q.buffer.length ≤ MAX_BUFFER_SPECULATE_SIZE ∧
    (∀ n : ℕ, (callbackStep s n).q.tail_frame ≠ s.q.tail_frame →
      n ≤ s.q.buffer.length) ∧
    (∀ (keep : (ℕ × ℕ) × ℕ → Bool) (sample : ℝ),
      (renderStep s keep sample).q.buffer.length ≤ MAX_BUFFER_SPECULATE_SIZE) := by
  obtain ⟨hv, hl⟩ := RReachable_inv s h
  refine ⟨?_, hl, ?_, ?_⟩
  · intro v hvm
    have h1 := hv v hvm
    exact ⟨h1, le_trans h1 (Nat.le_add_right _ _)⟩
  · intro n hne
    by_cases hc : n ≤ s.q.buffer.length
    · exact hc
    · exfalso
      apply hne
      unfold callbackStep
      rw [if_neg hc]
  · intro keep sample
    unfold renderStep
    split_ifs with hfull
    · exact hl
    · dsimp only
      rw [List.length_append]
      simp only [List.length_singleton]
      omega

theorem render_loop_total_witness :
    RReachable (applyEvent (RInit 1) (.hit 0 0)) ∧
    (applyEvent (RInit 1) (.hit 0 0)).q.buffer.length ≤ MAX_BUFFER_SPECULATE_SIZE := by
  have hr : RReachable (applyEvent (RInit 1) (.hit 0 0)) :=
    ⟨1, Relation.ReflTransGen.single (RStep.event (.hit 0 0) (RInit 1))⟩
  exact ⟨hr, (render_loop_total _ hr).2.1⟩

/-- C10: every event received by the render loop first drains the ring
completely without touching `tail_frame`, so at the moment the event is
applied `head_time = tail_time = tail_frame` — all speculated look-ahead
samples are discarded — and a `Hit` then lands its new voice exactly at frame
`tail_frame`, the first frame to be re-rendered with the event applied. -/
theorem event_drains_speculation (s : RState) (e : RenderEvent) :
    (applyEvent s e).q.buffer = [] ∧
    (applyEvent s e).q.tail_frame = s.q.tail_frame ∧
    (applyEvent s e).q.head_time = s.q.tail_frame ∧
    (applyEvent s e).q.tail_time = s.q.tail_frame ∧
    (∀ iid voice : ℕ, iid < s.instruments →
      ((iid, voice), s.q.tail_frame) ∈ (applyEvent s (.hit iid voice)).voices) := by
  refine ⟨applyEvent_buffer s e, applyEvent_tail_frame s e, ?_, ?_, ?_⟩
  · unfold RenderQueue.head_time
    rw [applyEvent_buffer s e, applyEvent_tail_frame s e]
    rfl
  · unfold RenderQueue.tail_time
    exact applyEvent_tail_frame s e
  · intro iid voice hi
    unfold applyEvent
    dsimp only
    rw [if_pos hi]
    have hnow : (s.q.drainAll).head_time = s.q.tail_frame := rfl
    rw [hnow]
    exact List.mem_cons_self _ _

theorem event_drains_speculation_witness :
    (0 : ℕ) < (RInit 1).instruments ∧
    ((0, 5), (RInit 1).q.tail_frame) ∈ (applyEvent (RInit 1) (.hit 0 5)).voices :=
  ⟨Nat.zero_lt_one,
    (event_drains_speculation (RInit 1) (.hit 0 5)).2.2.2.2 0 5 Nat.zero_lt_one⟩

/-- C8 counterexample: with the (constant) timestamp test
`playback − BACKOFF_SLEEP > callback` true and a ring that stays under-filled
for two successive checks (`num_frames = 1`, observed lengths 0, 0, 1), one
audio-callback invocation sleeps twice. -/
theorem audio_backoff_two_sleeps : waitLoopSleepCount true 1 [0, 0, 1] = 2 := rfl

/-- C8 (amended): the wait loop sleeps once per iteration that observes an
under-filled ring while `playback − BACKOFF_SLEEP > callback`; since the
timestamps are fixed for the whole invocation, the number of sleeps is
bounded only by how long the ring stays under-filled (it can be any `k`),
not by one.  When the timestamp test is false it never sleeps, and it sleeps
at most once per lock acquisition. -/
theorem audio_backoff_sleep_count :
    (∀ (nf : ℕ) (lens : List ℕ), waitLoopSleepCount false nf lens = 0) ∧
    (∀ (b : Bool) (nf : ℕ) (lens : List ℕ),
      waitLoopSleepCount b nf lens ≤ lens.length) ∧
    (∀ nf k : ℕ, 1 ≤ nf → waitLoopSleepCount true nf (List.replicate k 0) = k) := by
  refine ⟨?_, ?_, ?_⟩
  · intro nf lens
    cases lens with
    | nil => rfl
    | cons a l =>
      unfold waitLoopSleepCount
      split_ifs <;> simp_all
  · intro b nf lens
    induction lens with
    | nil => simp [waitLoopSleepCount]
    | cons a l ih =>
      unfold waitLoopSleepCount
      split_ifs <;> simp only [List.length_cons] <;> omega
  · intro nf k h1
    induction k with
    | zero => rfl
    | succ k ih =>
      rw [List.replicate_succ]
      unfold waitLoopSleepCount
      rw [if_neg (by omega), if_pos rfl, ih]
      omega

theorem audio_backoff_sleep_count_witness :
    (1 : ℕ) ≤ 1 ∧ waitLoopSleepCount true 1 (List.replicate 3 0) = 3 :=
  ⟨le_refl 1, audio_backoff_sleep_count.2.2 1 3 (le_refl 1)⟩

end Vijam
